import Mathlib

/-!
Verification of the terraboard API layer (src/api/api.go) against its
specification. Handlers from src/api/api.go are embedded as pure Lean
functions: writing an error response via JSONError and returning is
modelled as an `Except.error` carrying the (message, details) pair that
JSONError receives, and writing a marshalled payload as the success value
(or, where a claim is about the bytes written, as the response string).
Go maps (`map[string]LockInfo`) are represented as association lists with
unique keys; `m[k] = v` assignment is `insertLock`, which overwrites in
place. Collaborator packages of this repository that are not under src/
(state, db, compare) are modelled from the spec where a claim needs their
behaviour; each such definition carries a doc comment saying so.
-/

namespace Terraboard

/-- Modelled from the spec: `state.LockInfo` (the `state` package is not
under src/). Spec section 3: "reported by a state provider: lock holder identity,
acquisition timestamp, operation description, lineage key". -/
structure LockInfo where
  holder : String
  acquired : String
  operation : String
  lineage : String
deriving DecidableEq

/-- Modelled from the spec: a state-provider collaborator (`state.Provider`,
not under src/) exposes "GetLocks() to mapping from lineage key to LockInfo,
or error" (spec section 6). The mapping is an association list with unique keys. -/
structure Provider where
  GetLocks : Except String (List (String × LockInfo))

/-- Go map assignment `m[k] = v` on `map[string]LockInfo`: overwrite the
entry for `k` in place if present, else append it. -/
def insertLock : List (String × LockInfo) → String → LockInfo → List (String × LockInfo)
  | [], k, v => [(k, v)]
  | (k1, v1) :: rest, k, v =>
      if k1 = k then (k, v) :: rest else (k1, v1) :: insertLock rest k v

/-- Go map read `m[k]` on `map[string]LockInfo`. -/
def lookupLock (k : String) : List (String × LockInfo) → Option LockInfo
  | [] => none
  | (k1, v1) :: rest => if k1 = k then some v1 else lookupLock k rest

/-- The keys of a lock map. -/
def lockKeys (m : List (String × LockInfo)) : List String :=
  m.map Prod.fst

/-- The inner loop of `GetLocks` (src/api/api.go lines 139-141):
`for k, v := range locks { allLocks[k] = v }`. -/
def addLocks (allLocks locks : List (String × LockInfo)) : List (String × LockInfo) :=
  locks.foldl (fun m kv => insertLock m kv.1 kv.2) allLocks

/-- The provider loop of `GetLocks` (src/api/api.go lines 132-142): iterate
the providers in order; on the first provider error, call JSONError with
message "Failed to get locks on a provider" and return (dropping the
accumulator); otherwise merge that provider's locks into `allLocks`. -/
def getLocksAgg : List Provider → List (String × LockInfo) →
    Except (String × String) (List (String × LockInfo))
  | [], allLocks => Except.ok allLocks
  | sp :: rest, allLocks =>
      match sp.GetLocks with
      | Except.error err => Except.error ("Failed to get locks on a provider", err)
      | Except.ok locks => getLocksAgg rest (addLocks allLocks locks)

/-- JSON string quoting (no escaping needed for the plain values used here). -/
def quoteJson (s : String) : String :=
  "\"" ++ s ++ "\""

/-- Embedding of `JSONError` (src/api/api.go lines 20-28): the body written
for an error, a two-key JSON object. Go json.Marshal sorts map keys, so
"details" precedes "error". -/
def JSONError (message err : String) : String :=
  "\x7b" ++ quoteJson "details" ++ ":" ++ quoteJson err ++ ","
        ++ quoteJson "error" ++ ":" ++ quoteJson message ++ "\x7d"

/-- Go json.Marshal of one `LockInfo` value (fields in declaration order). -/
def marshalLockInfo (v : LockInfo) : String :=
  "\x7b" ++ quoteJson "holder" ++ ":" ++ quoteJson v.holder ++ ","
        ++ quoteJson "acquired" ++ ":" ++ quoteJson v.acquired ++ ","
        ++ quoteJson "operation" ++ ":" ++ quoteJson v.operation ++ ","
        ++ quoteJson "lineage" ++ ":" ++ quoteJson v.lineage ++ "\x7d"

/-- Go json.Marshal of a `map[string]LockInfo`: a JSON object with the
entries sorted by key (Go sorts map keys when marshalling). -/
def marshalLockMap (m : List (String × LockInfo)) : String :=
  let sorted := List.insertionSort (fun a b : String × LockInfo => a.1 ≤ b.1) m
  "\x7b" ++ String.intercalate "," (sorted.map fun kv => quoteJson kv.1 ++ ":" ++ marshalLockInfo kv.2) ++ "\x7d"

/-- Embedding of the handler `GetLocks` (src/api/api.go lines 131-152):
run the provider loop from an empty map; on error write the JSONError
body, otherwise write the marshalled lock map. The result is the response
body written. -/
def GetLocks (sps : List Provider) : String :=
  match getLocksAgg sps [] with
  | Except.error me => JSONError me.1 me.2
  | Except.ok allLocks => marshalLockMap allLocks

/-- The database collaborator as the handlers in src/api/api.go use it:
`DefaultVersion` may fail, `GetState` is a total lookup returning a state
payload (of abstract type `σ`). The `db` package itself is not under src/. -/
structure Database (σ : Type) where
  DefaultVersion : String → Except String String
  GetState : String → String → σ

/-- Embedding of the handler `GetState` (src/api/api.go lines 67-88):
read the `versionid` query parameter; if it is empty, resolve it via
`d.DefaultVersion` on the `lineage` path parameter, writing an error
response "Failed to retrieve default version" if that fails; then load
and return the state for (lineage, versionID). Marshalling of the state
payload is abstracted into the success value. -/
def GetState {σ : Type} (d : Database σ) (params query : String → String) :
    Except (String × String) σ :=
  let versionID := query "versionid"
  if versionID = "" then
    match d.DefaultVersion (params "lineage") with
    | Except.error err => Except.error ("Failed to retrieve default version", err)
    | Except.ok v => Except.ok (d.GetState (params "lineage") v)
  else
    Except.ok (d.GetState (params "lineage") versionID)

/-- Embedding of the handler `StateCompare` (src/api/api.go lines 106-128):
read `from` and `to` from the query, load both states with the single
`lineage` path parameter, and run the compare function; a compare error is
written via JSONError with message "Failed to compare state versions".
The compare collaborator is passed in as `cmp`. -/
def StateCompare {σ γ : Type} (d : Database σ) (cmp : σ → σ → Except String γ)
    (params query : String → String) : Except (String × String) γ :=
  let fromVersion := query "from"
  let toVersion := query "to"
  let fromState := d.GetState (params "lineage") fromVersion
  let toState := d.GetState (params "lineage") toVersion
  match cmp fromState toState with
  | Except.error err => Except.error ("Failed to compare state versions", err)
  | Except.ok c => Except.ok c

/-- Modelled from the spec: the Lineage Registry state (the `db` package is
not under src/). Per lineage key, the list of recorded versions as
(version identifier, serial) pairs (spec section 3, section 4.3). -/
def Registry : Type :=
  String → List (String × Nat)

/-- The recorded version with the highest serial, if any. -/
def latestVersion : List (String × Nat) → Option (String × Nat)
  | [] => none
  | v :: rest =>
      match latestVersion rest with
      | none => some v
      | some w => some (if v.2 ≤ w.2 then w else v)

/-- Modelled from the spec: `DefaultVersion` of the Lineage Registry
(spec section 4.3): "resolving to the most recent Version by serial/timestamp,
failing with UnknownLineageError if the lineage has no versions". -/
def DefaultVersionSpec (reg : Registry) (lineage : String) : Except String String :=
  match latestVersion (reg lineage) with
  | none => Except.error "UnknownLineageError"
  | some v => Except.ok v.1

/-- Modelled from the spec: a version identifier "belongs to" a lineage
when it is among that lineage's recorded versions (spec section 4.5). -/
def versionBelongs (reg : Registry) (lineage versionID : String) : Prop :=
  versionID ∈ (reg lineage).map Prod.fst

instance (reg : Registry) (lineage versionID : String) :
    Decidable (versionBelongs reg lineage versionID) := by
  unfold versionBelongs; infer_instance

/-- A database whose `DefaultVersion` is the spec-modelled registry
resolution and whose `GetState` is an abstract loader. -/
def dbOfRegistry {σ : Type} (reg : Registry) (load : String → String → σ) : Database σ :=
  ⟨DefaultVersionSpec reg, load⟩

/-- Change kinds of a ChangeEntry (spec section 3). -/
inductive ChangeKind
  | added
  | removed
  | modified
deriving DecidableEq

/-- Modelled from the spec: one ChangeEntry of a ComparisonResult (spec
section 3): resource identifier, attribute path, change kind, old value
(absent if added), new value (absent if removed). -/
structure ChangeEntry where
  resource : String
  attrPath : String
  kind : ChangeKind
  oldValue : Option String
  newValue : Option String
deriving DecidableEq

/-- Modelled from the spec: an Attribute Tree after the flattening of spec
section 4.1 - a finite map from (resource identifier, attribute path) to a
scalar leaf value, represented as an association list with unique keys. -/
abbrev AttributeTree : Type :=
  List ((String × String) × String)

/-- Lookup of a flattened attribute key in a tree. -/
def treeLookup (k : String × String) : AttributeTree → Option String
  | [] => none
  | (k1, v) :: rest => if k1 = k then some v else treeLookup k rest

/-- The flattened keys of a tree. -/
def treeKeys (t : AttributeTree) : List (String × String) :=
  t.map Prod.fst

/-- The invariant ordering of spec section 3: by resource identifier, then
attribute path, lexicographically. -/
def keyLE (a b : String × String) : Prop :=
  a.1 < b.1 ∨ (a.1 = b.1 ∧ a.2 ≤ b.2)

instance : DecidableRel keyLE := fun a b => by
  unfold keyLE; infer_instance

instance : IsTotal (String × String) keyLE :=
  ⟨by
    intro a b
    rcases lt_trichotomy a.1 b.1 with h | h | h
    · exact Or.inl (Or.inl h)
    · rcases le_total a.2 b.2 with h2 | h2
      · exact Or.inl (Or.inr ⟨h, h2⟩)
      · exact Or.inr (Or.inr ⟨h.symm, h2⟩)
    · exact Or.inr (Or.inl h)⟩

instance : IsTrans (String × String) keyLE :=
  ⟨by
    intro a b c hab hbc
    rcases hab with h1 | ⟨h1, h2⟩ <;> rcases hbc with h3 | ⟨h3, h4⟩
    · exact Or.inl (h1.trans h3)
    · exact Or.inl (lt_of_lt_of_le h1 (le_of_eq h3))
    · exact Or.inl (lt_of_le_of_lt (le_of_eq h1) h3)
    · exact Or.inr ⟨h1.trans h3, h2.trans h4⟩⟩

instance : IsAntisymm (String × String) keyLE :=
  ⟨by
    intro a b hab hba
    rcases hab with h1 | ⟨h1, h2⟩ <;> rcases hba with h3 | ⟨h3, h4⟩
    · exact absurd h3 (lt_asymm h1)
    · exact absurd (lt_of_lt_of_le h1 (le_of_eq h3)) (lt_irrefl _)
    · exact absurd (lt_of_lt_of_le h3 (le_of_eq h1)) (lt_irrefl _)
    · exact Prod.ext h1 (le_antisymm h2 h4)⟩

/-- The per-key comparison of spec section 4.2 step 3: absent in `to` is
removed, absent in `from` is added, unequal values are modified, equal
values produce no entry. -/
def entryOfKey (fromT toT : AttributeTree) (k : String × String) : Option ChangeEntry :=
  match treeLookup k fromT, treeLookup k toT with
  | some x, some y =>
      if x = y then none
      else some ⟨k.1, k.2, ChangeKind.modified, some x, some y⟩
  | some x, none => some ⟨k.1, k.2, ChangeKind.removed, some x, none⟩
  | none, some y => some ⟨k.1, k.2, ChangeKind.added, none, some y⟩
  | none, none => none

/-- Modelled from the spec: the Diff Engine `Compare` (the `compare`
package is not under src/), spec section 4.2: compare the two flattened
trees key by key over the union of their key sets and emit the entries
sorted in the invariant ordering (resource identifier, then attribute
path). -/
def Compare (fromT toT : AttributeTree) : List ChangeEntry :=
  (List.insertionSort keyLE ((treeKeys fromT ++ treeKeys toT).dedup)).filterMap
    (entryOfKey fromT toT)

/-- A concrete lock held by alice, for example inputs. -/
def lockA : LockInfo :=
  ⟨"alice", "2024-01-01T00:00:00Z", "apply", "prod/vpc"⟩

/-- A concrete lock held by bob, for example inputs. -/
def lockB : LockInfo :=
  ⟨"bob", "2024-01-02T00:00:00Z", "plan", "prod/vpc"⟩

/-- A provider reporting the lock held by alice. -/
def providerOkA : Provider :=
  ⟨Except.ok [("prod/vpc", lockA)]⟩

/-- A provider reporting the lock held by bob under the same lineage key. -/
def providerOkB : Provider :=
  ⟨Except.ok [("prod/vpc", lockB)]⟩

/-- A second provider reporting exactly the same lock as `providerOkA`. -/
def providerOkA2 : Provider :=
  ⟨Except.ok [("prod/vpc", lockA)]⟩

/-- A provider whose GetLocks call fails. -/
def providerDown : Provider :=
  ⟨Except.error "connection refused"⟩

/-- A concrete registry: lineage "prod" has one version "v1" with serial 1,
every other lineage has no versions. -/
def regEx : Registry :=
  fun l => if l = "prod" then [("v1", 1)] else []

/-- A concrete loader that tags the state payload with its coordinates. -/
def loadEx : String → String → String :=
  fun l v => l ++ ":" ++ v

/-- The concrete database built from `regEx` and `loadEx`. -/
def dbEx : Database String :=
  dbOfRegistry regEx loadEx

/-- Path parameters of a request for lineage "prod". -/
def paramsProd : String → String :=
  fun s => if s = "lineage" then "prod" else ""

/-- Query parameters requesting explicit version "v2". -/
def queryV2 : String → String :=
  fun s => if s = "versionid" then "v2" else ""

/-- Query parameters with no version requested. -/
def queryNoVersion : String → String :=
  fun _ => ""

/-- A database agreeing with `dbEx` on lineage "prod" but differing on the
states of every other lineage. -/
def dbOther : Database String :=
  ⟨DefaultVersionSpec regEx, fun l v => if l = "prod" then l ++ ":" ++ v else "DIFFERENT"⟩

/-- A concrete compare collaborator recording its two inputs. -/
def cmpEx : String → String → Except String (List String) :=
  fun a b => Except.ok [a, b]

/-- Query parameters selecting versions "v1" and "v2" for a comparison. -/
def queryFromTo : String → String :=
  fun s => if s = "from" then "v1" else if s = "to" then "v2" else ""

/-- A concrete attribute tree with two flattened attributes. -/
def treeA : AttributeTree :=
  [(("aws_vpc.main", "cidr_block"), "10.0.0.0/16"),
   (("aws_subnet.a", "cidr_block"), "10.1.1.0/24")]

/-- The same finite map as `treeA`, represented in the other entry order. -/
def treeA2 : AttributeTree :=
  [(("aws_subnet.a", "cidr_block"), "10.1.1.0/24"),
   (("aws_vpc.main", "cidr_block"), "10.0.0.0/16")]

/-- A concrete target tree with a changed value and a new attribute. -/
def treeB : AttributeTree :=
  [(("aws_vpc.main", "cidr_block"), "10.1.0.0/16"),
   (("aws_vpc.main", "tags.Name"), "main")]

/-- The same finite map as `treeB`, represented in the other entry order. -/
def treeB2 : AttributeTree :=
  [(("aws_vpc.main", "tags.Name"), "main"),
   (("aws_vpc.main", "cidr_block"), "10.1.0.0/16")]

/-- Path parameters of a request for lineage "staging", which has no
recorded versions in `regEx`. -/
def paramsStaging : String → String :=
  fun s => if s = "lineage" then "staging" else ""

theorem lockKeys_cons (kv : String × LockInfo) (tl : List (String × LockInfo)) :
    lockKeys (kv :: tl) = kv.1 :: lockKeys tl := rfl

theorem addLocks_cons (acc : List (String × LockInfo)) (kv : String × LockInfo)
    (rest : List (String × LockInfo)) :
    addLocks acc (kv :: rest) = addLocks (insertLock acc kv.1 kv.2) rest := rfl

theorem lookup_insertLock_self (m : List (String × LockInfo)) (k : String) (v : LockInfo) :
    lookupLock k (insertLock m k v) = some v := by
  induction m with
  | nil => simp [insertLock, lookupLock]
  | cons hd tl ih =>
      obtain ⟨k1, v1⟩ := hd
      by_cases h : k1 = k
      · simp [insertLock, h, lookupLock]
      · simp [insertLock, h, lookupLock, ih]

theorem lookup_insertLock_ne (m : List (String × LockInfo)) (k1 k : String) (v : LockInfo)
    (h : k1 ≠ k) : lookupLock k (insertLock m k1 v) = lookupLock k m := by
  induction m with
  | nil => simp [insertLock, lookupLock, h]
  | cons hd tl ih =>
      obtain ⟨k2, v2⟩ := hd
      by_cases h2 : k2 = k1
      · subst h2; simp [insertLock, lookupLock, h]
      · simp only [insertLock, if_neg h2, lookupLock]
        by_cases h3 : k2 = k
        · simp [h3]
        · simp [h3, ih]

theorem mem_lockKeys_insertLock (m : List (String × LockInfo)) (k k1 : String) (v : LockInfo) :
    k1 ∈ lockKeys (insertLock m k v) ↔ k1 = k ∨ k1 ∈ lockKeys m := by
  induction m with
  | nil => simp [insertLock, lockKeys]
  | cons hd tl ih =>
      obtain ⟨k2, v2⟩ := hd
      by_cases h : k2 = k
      · subst h
        simp [insertLock, lockKeys]
      · simp only [insertLock, if_neg h, lockKeys_cons, List.mem_cons]
        rw [show lockKeys (insertLock tl k v) = List.map Prod.fst (insertLock tl k v) from rfl] at ih
        rw [show lockKeys tl = List.map Prod.fst tl from rfl] at ih
        simp only [lockKeys] at ih ⊢
        rw [ih]
        tauto

theorem nodup_insertLock (m : List (String × LockInfo)) (k : String) (v : LockInfo)
    (h : (lockKeys m).Nodup) : (lockKeys (insertLock m k v)).Nodup := by
  induction m with
  | nil => simp [insertLock, lockKeys]
  | cons hd tl ih =>
      obtain ⟨k2, v2⟩ := hd
      rw [lockKeys_cons] at h
      obtain ⟨hk2, htl⟩ := List.nodup_cons.mp h
      by_cases hh : k2 = k
      · subst hh
        simp only [insertLock, if_pos rfl, lockKeys_cons]
        exact List.nodup_cons.mpr ⟨hk2, htl⟩
      · simp only [insertLock, if_neg hh, lockKeys_cons]
        refine List.nodup_cons.mpr ⟨?_, ih htl⟩
        intro hmem
        rcases (mem_lockKeys_insertLock tl k k2 v).mp hmem with he | hm
        · exact hh he
        · exact hk2 hm

theorem nodup_addLocks (locks acc : List (String × LockInfo))
    (h : (lockKeys acc).Nodup) : (lockKeys (addLocks acc locks)).Nodup := by
  induction locks generalizing acc with
  | nil => exact h
  | cons hd tl ih => rw [addLocks_cons]; exact ih _ (nodup_insertLock _ _ _ h)

theorem lookup_addLocks_not_mem (locks acc : List (String × LockInfo)) (k : String)
    (h : k ∉ lockKeys locks) :
    lookupLock k (addLocks acc locks) = lookupLock k acc := by
  induction locks generalizing acc with
  | nil => rfl
  | cons hd tl ih =>
      obtain ⟨k1, v1⟩ := hd
      rw [lockKeys_cons, List.mem_cons] at h
      push_neg at h
      rw [addLocks_cons, ih _ h.2, lookup_insertLock_ne _ _ _ _ (Ne.symm h.1)]

theorem lookup_addLocks_mem (locks acc : List (String × LockInfo)) (k : String) (v : LockInfo)
    (hnd : (lockKeys locks).Nodup) (h : (k, v) ∈ locks) :
    lookupLock k (addLocks acc locks) = some v := by
  induction locks generalizing acc with
  | nil => cases h
  | cons hd tl ih =>
      obtain ⟨k1, v1⟩ := hd
      rw [lockKeys_cons] at hnd
      obtain ⟨hk1, hndtl⟩ := List.nodup_cons.mp hnd
      rcases List.mem_cons.mp h with he | hm
      · cases he
        rw [addLocks_cons, lookup_addLocks_not_mem _ _ _ hk1, lookup_insertLock_self]
      · rw [addLocks_cons]
        exact ih _ hndtl hm

theorem mem_of_lookupLock (m : List (String × LockInfo)) (k : String) (v : LockInfo)
    (h : lookupLock k m = some v) : (k, v) ∈ m := by
  induction m with
  | nil => simp [lookupLock] at h
  | cons hd tl ih =>
      obtain ⟨k1, v1⟩ := hd
      by_cases hk : k1 = k
      · subst hk
        simp [lookupLock] at h
        subst h
        exact List.mem_cons_self _ _
      · simp only [lookupLock, if_neg hk] at h
        exact List.mem_cons_of_mem _ (ih h)

theorem lookup_eq_of_mem_nodup (m : List (String × LockInfo)) (k : String) (v : LockInfo)
    (hnd : (lockKeys m).Nodup) (h : (k, v) ∈ m) :
    lookupLock k m = some v := by
  induction m with
  | nil => cases h
  | cons hd tl ih =>
      obtain ⟨k1, v1⟩ := hd
      rw [lockKeys_cons] at hnd
      obtain ⟨hk1, hndtl⟩ := List.nodup_cons.mp hnd
      rcases List.mem_cons.mp h with he | hm
      · cases he
        simp [lookupLock]
      · have hne : k1 ≠ k := by
          intro hh
          subst hh
          exact hk1 (List.mem_map.mpr ⟨(k1, v), hm, rfl⟩)
        simp [lookupLock, hne, ih hndtl hm]

theorem getLocksAgg_append (xs ys : List Provider) (acc m : List (String × LockInfo))
    (h : getLocksAgg (xs ++ ys) acc = Except.ok m) :
    ∃ mid, getLocksAgg xs acc = Except.ok mid ∧ getLocksAgg ys mid = Except.ok m := by
  induction xs generalizing acc with
  | nil => exact ⟨acc, rfl, h⟩
  | cons sp rest ih =>
      rw [List.cons_append] at h
      cases hsp : sp.GetLocks with
      | error e =>
          simp only [getLocksAgg, hsp] at h
          exact Except.noConfusion h
      | ok locks =>
          simp only [getLocksAgg, hsp] at h ⊢
          exact ih _ h

theorem getLocksAgg_nodup (sps : List Provider) (acc m : List (String × LockInfo))
    (h : getLocksAgg sps acc = Except.ok m) (hnd : (lockKeys acc).Nodup) :
    (lockKeys m).Nodup := by
  induction sps generalizing acc with
  | nil =>
      injection h with h
      subst h
      exact hnd
  | cons sp rest ih =>
      cases hsp : sp.GetLocks with
      | error e =>
          simp only [getLocksAgg, hsp] at h
          exact Except.noConfusion h
      | ok locks =>
          simp only [getLocksAgg, hsp] at h
          exact ih _ h (nodup_addLocks _ _ hnd)

theorem getLocksAgg_lookup_frozen (sps : List Provider) (acc m : List (String × LockInfo))
    (k : String)
    (hnone : ∀ q ∈ sps, ∀ l, q.GetLocks = Except.ok l → k ∉ lockKeys l)
    (h : getLocksAgg sps acc = Except.ok m) :
    lookupLock k m = lookupLock k acc := by
  induction sps generalizing acc with
  | nil =>
      injection h with h
      subst h
      rfl
  | cons sp rest ih =>
      cases hsp : sp.GetLocks with
      | error e =>
          simp only [getLocksAgg, hsp] at h
          exact Except.noConfusion h
      | ok locks =>
          simp only [getLocksAgg, hsp] at h
          have hk := hnone sp (List.mem_cons_self _ _) locks hsp
          rw [ih _ (fun q hq l hl => hnone q (List.mem_cons_of_mem _ hq) l hl) h]
          exact lookup_addLocks_not_mem _ _ _ hk

theorem getLocksAgg_error_first (pre post : List Provider) (p : Provider) (e : String)
    (acc : List (String × LockInfo))
    (hpre : ∀ q ∈ pre, ∃ l, q.GetLocks = Except.ok l)
    (hp : p.GetLocks = Except.error e) :
    getLocksAgg (pre ++ p :: post) acc =
      Except.error ("Failed to get locks on a provider", e) := by
  induction pre generalizing acc with
  | nil => simp only [List.nil_append, getLocksAgg, hp]
  | cons q rest ih =>
      obtain ⟨l, hl⟩ := hpre q (List.mem_cons_self _ _)
      simp only [List.cons_append, getLocksAgg, hl]
      exact ih _ (fun q2 hq2 => hpre q2 (List.mem_cons_of_mem _ hq2))

theorem treeKeys_cons (kv : (String × String) × String) (tl : AttributeTree) :
    treeKeys (kv :: tl) = kv.1 :: treeKeys tl := rfl

theorem treeLookup_eq_some_of_mem (t : AttributeTree) (k : String × String) (v : String)
    (hnd : (treeKeys t).Nodup) (h : (k, v) ∈ t) :
    treeLookup k t = some v := by
  induction t with
  | nil => cases h
  | cons hd tl ih =>
      obtain ⟨k1, v1⟩ := hd
      rw [treeKeys_cons] at hnd
      obtain ⟨hk1, hndtl⟩ := List.nodup_cons.mp hnd
      rcases List.mem_cons.mp h with he | hm
      · cases he
        simp [treeLookup]
      · have hne : k1 ≠ k := by
          intro hh
          subst hh
          exact hk1 (List.mem_map.mpr ⟨(k1, v), hm, rfl⟩)
        simp [treeLookup, hne, ih hndtl hm]

theorem mem_of_treeLookup (t : AttributeTree) (k : String × String) (v : String)
    (h : treeLookup k t = some v) : (k, v) ∈ t := by
  induction t with
  | nil => simp [treeLookup] at h
  | cons hd tl ih =>
      obtain ⟨k1, v1⟩ := hd
      by_cases hk : k1 = k
      · subst hk
        simp [treeLookup] at h
        subst h
        exact List.mem_cons_self _ _
      · simp only [treeLookup, if_neg hk] at h
        exact List.mem_cons_of_mem _ (ih h)

theorem treeLookup_none_iff (t : AttributeTree) (k : String × String) :
    treeLookup k t = none ↔ k ∉ treeKeys t := by
  induction t with
  | nil => simp [treeLookup, treeKeys]
  | cons hd tl ih =>
      obtain ⟨k1, v1⟩ := hd
      rw [treeKeys_cons]
      by_cases hk : k1 = k
      · subst hk
        simp [treeLookup]
      · simp only [treeLookup, if_neg hk, List.mem_cons, ih]
        constructor
        · intro hh
          rintro (he | hm)
          · exact hk he.symm
          · exact hh hm
        · intro hh hm
          exact hh (Or.inr hm)

theorem treeLookup_perm (A B : AttributeTree) (hAB : A.Perm B)
    (hnd : (treeKeys A).Nodup) (k : String × String) :
    treeLookup k A = treeLookup k B := by
  have hkeys : (treeKeys A).Perm (treeKeys B) := hAB.map Prod.fst
  have hndB : (treeKeys B).Nodup := hkeys.nodup hnd
  cases hA : treeLookup k A with
  | none =>
      rw [treeLookup_none_iff] at hA
      rw [eq_comm, treeLookup_none_iff]
      intro hkB
      exact hA (hkeys.mem_iff.mpr hkB)
  | some v =>
      have hm : (k, v) ∈ B := hAB.mem_iff.mp (mem_of_treeLookup _ _ _ hA)
      rw [treeLookup_eq_some_of_mem _ _ _ hndB hm]

theorem insertionSort_key_eq_of_perm (l1 l2 : List (String × String)) (h : l1.Perm l2) :
    List.insertionSort keyLE l1 = List.insertionSort keyLE l2 :=
  List.eq_of_perm_of_sorted
    ((List.perm_insertionSort keyLE l1).trans (h.trans (List.perm_insertionSort keyLE l2).symm))
    (List.sorted_insertionSort keyLE l1) (List.sorted_insertionSort keyLE l2)

/-- Claim C1 counterexample: with a first provider that successfully
reports the lock held by alice and a second provider that fails, GetLocks
reports only the error payload; the aggregation never produces an ok
result, so the lock entry already obtained from the first provider is
absent from the reported output, contradicting "without suppressing the
lock results already obtained from the other providers". -/
theorem getLocks_partial_results_dropped :
    getLocksAgg [providerOkA, providerDown] []
        = Except.error ("Failed to get locks on a provider", "connection refused")
    ∧ (¬ ∃ m, getLocksAgg [providerOkA, providerDown] [] = Except.ok m
          ∧ ("prod/vpc", lockA) ∈ m)
    ∧ GetLocks [providerOkA, providerDown]
        = JSONError "Failed to get locks on a provider" "connection refused" := by
  refine ⟨rfl, ?_, rfl⟩
  rintro ⟨m, hm, -⟩
  rw [show getLocksAgg [providerOkA, providerDown] []
      = Except.error ("Failed to get locks on a provider", "connection refused") from rfl] at hm
  exact Except.noConfusion hm

/-- Claim C1 (amended): if one provider's GetLocks call fails, the handler
aborts the whole aggregation: the response written is exactly the
JSONError payload with message "Failed to get locks on a provider" and the
provider error as details; the lock results already obtained from the
providers iterated before the failure are discarded, not reported, and the
payload does not name the failed provider beyond that error detail. -/
theorem getLocks_provider_error_aborts (pre post : List Provider) (p : Provider) (e : String)
    (hpre : ∀ q ∈ pre, ∃ l, q.GetLocks = Except.ok l)
    (hp : p.GetLocks = Except.error e) :
    GetLocks (pre ++ p :: post) = JSONError "Failed to get locks on a provider" e := by
  unfold GetLocks
  rw [getLocksAgg_error_first pre post p e [] hpre hp]

/-- Claim C1 amended witness: the concrete two-provider aggregation in
which the second provider is down. -/
theorem getLocks_provider_error_aborts_witness :
    GetLocks [providerOkA, providerDown]
      = JSONError "Failed to get locks on a provider" "connection refused" :=
  getLocks_provider_error_aborts [providerOkA] [] providerDown "connection refused"
    (by
      intro q hq
      rw [List.mem_singleton] at hq
      subst hq
      exact ⟨_, rfl⟩)
    rfl

/-- Claim C2: when a provider reports a lock for key `k` and no provider
iterated after it reports `k`, the aggregated mapping contains under `k`
exactly the LockInfo of that last-iterated reporter: the lookup yields its
value and any entry for `k` equals it, so an earlier provider's
conflicting report for the same key is absent (last-seen overwrite). -/
theorem getLocks_last_seen_wins (pre post : List Provider) (p : Provider)
    (l m : List (String × LockInfo)) (k : String) (v : LockInfo)
    (hagg : getLocksAgg (pre ++ p :: post) [] = Except.ok m)
    (hp : p.GetLocks = Except.ok l)
    (hkv : (k, v) ∈ l)
    (hnd : (lockKeys l).Nodup)
    (hpost : ∀ q ∈ post, ∀ l2, q.GetLocks = Except.ok l2 → k ∉ lockKeys l2) :
    lookupLock k m = some v ∧ ∀ v2, (k, v2) ∈ m → v2 = v := by
  obtain ⟨mid, hmid, hrest⟩ := getLocksAgg_append pre (p :: post) [] m hagg
  have hstep : getLocksAgg post (addLocks mid l) = Except.ok m := by
    simpa only [getLocksAgg, hp] using hrest
  have hlook : lookupLock k m = some v := by
    rw [getLocksAgg_lookup_frozen post (addLocks mid l) m k hpost hstep]
    exact lookup_addLocks_mem l mid k v hnd hkv
  have hmnd : (lockKeys m).Nodup :=
    getLocksAgg_nodup (pre ++ p :: post) [] m hagg (by simp [lockKeys])
  refine ⟨hlook, ?_⟩
  intro v2 hv2
  have h2 := lookup_eq_of_mem_nodup m k v2 hmnd hv2
  rw [hlook] at h2
  injection h2 with h2
  exact h2.symm

/-- Claim C2 witness: providers reporting the alice lock and then the bob
lock under the same key "prod/vpc"; the aggregate holds exactly bob's. -/
theorem getLocks_last_seen_wins_witness :
    lookupLock "prod/vpc" [("prod/vpc", lockB)] = some lockB
    ∧ ∀ v2, ("prod/vpc", v2) ∈ [("prod/vpc", lockB)] → v2 = lockB :=
  getLocks_last_seen_wins [providerOkA] [] providerOkB
    [("prod/vpc", lockB)] [("prod/vpc", lockB)] "prod/vpc" lockB
    rfl rfl (by simp) (by simp [lockKeys])
    (by
      intro q hq
      exact absurd hq (List.not_mem_nil q))

/-- Claim C3: when the versionid query parameter is empty, GetState
resolves the version through the registry DefaultVersion for the requested
lineage and the state returned is the one loaded under that default
version identifier. -/
theorem getState_empty_version_uses_default {σ : Type} (d : Database σ)
    (params query : String → String) (v : String)
    (hq : query "versionid" = "")
    (hd : d.DefaultVersion (params "lineage") = Except.ok v) :
    GetState d params query = Except.ok (d.GetState (params "lineage") v) := by
  simp [GetState, hq, hd]

/-- Claim C3 witness: the concrete registry resolves lineage "prod" to
default version "v1" and the state loaded at ("prod", "v1") is returned. -/
theorem getState_empty_version_uses_default_witness :
    GetState dbEx paramsProd queryNoVersion = Except.ok "prod:v1" :=
  getState_empty_version_uses_default dbEx paramsProd queryNoVersion "v1" rfl rfl

/-- Claim C4 counterexample: in the concrete registry, version "v2" does
not belong to lineage "prod", yet a GetState request for lineage "prod"
with explicit versionid "v2" does not fail with VersionNotFoundError: the
handler returns the state loaded at ("prod", "v2") - no validation
happens before the state is returned. -/
theorem getState_no_version_validation :
    ¬ versionBelongs regEx "prod" "v2"
    ∧ GetState dbEx paramsProd queryV2 = Except.ok "prod:v2" := by
  refine ⟨?_, rfl⟩
  intro h
  simp [versionBelongs, regEx] at h

/-- Claim C4 (amended): for every request supplying a non-empty version
identifier, the handler performs no membership validation at all: it
passes the identifier straight to the state loader and returns the loaded
state; no VersionNotFoundError (nor any error) is produced in this
layer. -/
theorem getState_explicit_version_unvalidated {σ : Type} (d : Database σ)
    (params query : String → String) (hq : query "versionid" ≠ "") :
    GetState d params query
      = Except.ok (d.GetState (params "lineage") (query "versionid")) := by
  simp [GetState, hq]

/-- Claim C4 amended witness: the concrete explicit-version request. -/
theorem getState_explicit_version_unvalidated_witness :
    GetState dbEx paramsProd queryV2 = Except.ok "prod:v2" :=
  getState_explicit_version_unvalidated dbEx paramsProd queryV2 (by decide)

/-- Claim C5: for a lineage with zero recorded versions, a GetState
request with an empty versionid fails: DefaultVersion errors with
UnknownLineageError, the handler writes the error response
("Failed to retrieve default version", UnknownLineageError) and no state
payload is returned. -/
theorem getState_unknown_lineage_error {σ : Type} (reg : Registry)
    (load : String → String → σ) (params query : String → String)
    (hq : query "versionid" = "")
    (hempty : reg (params "lineage") = []) :
    GetState (dbOfRegistry reg load) params query
      = Except.error ("Failed to retrieve default version", "UnknownLineageError") := by
  have hd : (dbOfRegistry reg load).DefaultVersion (params "lineage")
      = Except.error "UnknownLineageError" := by
    show DefaultVersionSpec reg (params "lineage") = _
    unfold DefaultVersionSpec
    rw [hempty]
    rfl
  simp [GetState, hq, hd]

/-- Claim C5 witness: lineage "staging" has no versions in the concrete
registry and the request fails with UnknownLineageError. -/
theorem getState_unknown_lineage_error_witness :
    GetState (dbOfRegistry regEx loadEx) paramsStaging queryNoVersion
      = Except.error ("Failed to retrieve default version", "UnknownLineageError") :=
  getState_unknown_lineage_error regEx loadEx paramsStaging queryNoVersion rfl rfl

/-- Claim C6: when two providers report a lock for the same lineage key
with the same LockInfo (same holder and timestamp), the aggregation yields
exactly one entry under that key - the key occurs once in the aggregated
map and looks up to that LockInfo - not two. -/
theorem getLocks_duplicate_idempotent (p1 p2 : Provider)
    (l1 l2 m : List (String × LockInfo)) (k : String) (v : LockInfo)
    (h1 : p1.GetLocks = Except.ok l1) (h2 : p2.GetLocks = Except.ok l2)
    (hnd2 : (lockKeys l2).Nodup)
    (hk2 : (k, v) ∈ l2)
    (hm : getLocksAgg [p1, p2] [] = Except.ok m) :
    List.count k (lockKeys m) = 1 ∧ lookupLock k m = some v := by
  have hm2 : m = addLocks (addLocks [] l1) l2 := by
    simp only [getLocksAgg, h1, h2] at hm
    injection hm with hm
    exact hm.symm
  subst hm2
  have hnd : (lockKeys (addLocks (addLocks [] l1) l2)).Nodup :=
    nodup_addLocks _ _ (nodup_addLocks _ _ (by simp [lockKeys]))
  have hlook : lookupLock k (addLocks (addLocks [] l1) l2) = some v :=
    lookup_addLocks_mem l2 _ k v hnd2 hk2
  refine ⟨?_, hlook⟩
  have hkm : k ∈ lockKeys (addLocks (addLocks [] l1) l2) :=
    List.mem_map.mpr ⟨(k, v), mem_of_lookupLock _ _ _ hlook, rfl⟩
  exact List.count_eq_one_of_mem hnd hkm

/-- Claim C6 witness: two providers both reporting the alice lock under
"prod/vpc"; the aggregated map holds the key exactly once. -/
theorem getLocks_duplicate_idempotent_witness :
    List.count "prod/vpc" (lockKeys [("prod/vpc", lockA)]) = 1
    ∧ lookupLock "prod/vpc" [("prod/vpc", lockA)] = some lockA :=
  getLocks_duplicate_idempotent providerOkA providerOkA2
    [("prod/vpc", lockA)] [("prod/vpc", lockA)] [("prod/vpc", lockA)] "prod/vpc" lockA
    rfl rfl (by simp [lockKeys]) (by simp) rfl

/-- Claim C7: Compare is deterministic: invoked twice on identical inputs
it produces the identical ordered ChangeEntry sequence, and this holds for
the inputs as finite maps - two representations of the same attribute
maps, presented in any entry order (mirroring Go map iteration
nondeterminism), yield the same output sequence in the same order. -/
theorem compare_deterministic (A A2 B B2 : AttributeTree)
    (hA : A.Perm A2) (hB : B.Perm B2)
    (hAnd : (treeKeys A).Nodup) (hBnd : (treeKeys B).Nodup) :
    Compare A B = Compare A B ∧ Compare A B = Compare A2 B2 := by
  refine ⟨rfl, ?_⟩
  unfold Compare
  have hkeys : List.insertionSort keyLE ((treeKeys A ++ treeKeys B).dedup)
      = List.insertionSort keyLE ((treeKeys A2 ++ treeKeys B2).dedup) :=
    insertionSort_key_eq_of_perm _ _ (((hA.map Prod.fst).append (hB.map Prod.fst)).dedup)
  rw [← hkeys]
  apply List.filterMap_congr
  intro k _
  unfold entryOfKey
  rw [treeLookup_perm A A2 hA hAnd k, treeLookup_perm B B2 hB hBnd k]

/-- Claim C7 witness: the two concrete trees, each presented in both entry
orders, compare to the same ChangeEntry sequence. -/
theorem compare_deterministic_witness :
    Compare treeA treeB = Compare treeA treeB
    ∧ Compare treeA treeB = Compare treeA2 treeB2 :=
  compare_deterministic treeA treeA2 treeB treeB2
    (by decide) (by decide) (by decide) (by decide)

/-- Claim C9: for the empty provider list GetLocks always succeeds: the
aggregation takes the ok branch with the empty mapping (the error branch
is unreachable) and the response written is the serialization of the
empty lock mapping - the two-character JSON object - never an error
payload. -/
theorem getLocks_empty_ok :
    GetLocks [] = "\x7b\x7d" ∧ getLocksAgg [] [] = Except.ok [] := by
  exact ⟨rfl, rfl⟩

/-- Claim C10: StateCompare loads both snapshots using the single lineage
path parameter: its response is exactly the comparison of the states
loaded at (params "lineage", from) and (params "lineage", to), and it
depends only on the states of that one lineage - any two databases that
agree on the states of params "lineage" produce identical responses - so
the endpoint never compares versions belonging to two different
lineages. -/
theorem stateCompare_single_lineage {σ γ : Type} (d d2 : Database σ)
    (cmp : σ → σ → Except String γ) (params query : String → String)
    (hagree : ∀ v, d.GetState (params "lineage") v = d2.GetState (params "lineage") v) :
    (StateCompare d cmp params query =
      match cmp (d.GetState (params "lineage") (query "from"))
            (d.GetState (params "lineage") (query "to")) with
      | Except.error err => Except.error ("Failed to compare state versions", err)
      | Except.ok c => Except.ok c)
    ∧ StateCompare d cmp params query = StateCompare d2 cmp params query := by
  refine ⟨rfl, ?_⟩
  simp only [StateCompare, hagree]

/-- Claim C10 witness: a database disagreeing with `dbEx` on every lineage
other than "prod" yields the identical comparison response. -/
theorem stateCompare_single_lineage_witness :
    StateCompare dbEx cmpEx paramsProd queryFromTo
      = StateCompare dbOther cmpEx paramsProd queryFromTo :=
  (stateCompare_single_lineage dbEx dbOther cmpEx paramsProd queryFromTo (fun _ => rfl)).2

end Terraboard
